import Mathlib

/-!
Shallow embedding of the ADIOS block I/O scheduler (src/adios.c) and proofs
about its latency model, deadline index, priority lane, batch pipeline and
runtime tunables.  Machine integers (u32/u64) are modelled as `Nat`; the
quantities involved (nanosecond latencies, counts, byte sizes) stay far from
2^64 in every reachable state, and no theorem below depends on wraparound.
-/

/- Constants from adios.c lines 60-67. -/

def LM_BLOCK_SIZE_THRESHOLD : Nat := 4096
def LM_SAMPLES_THRESHOLD : Nat := 1024
def LM_INTERVAL_THRESHOLD : Nat := 1500
def LM_OUTLIER_PERCENTILE : Nat := 99
def LM_LAT_BUCKET_COUNT : Nat := 64
def LM_SHRINK_AT_MREQ : Nat := 10
def LM_SHRINK_AT_GBYTES : Nat := 100
def LM_SHRINK_RESIST : Nat := 2

/-- Kernel `msecs_to_jiffies` with HZ = 1000 (identity on milliseconds);
only the C8 bootstrap path is proved through `latency_model_update`, and it
forces `time_elapsed` via `!model->base`, so the HZ choice is irrelevant. -/
def msecs_to_jiffies (ms : Nat) : Nat := ms

/-- Struct latency_bucket (adios.c lines 70-74). -/
structure LatencyBucket where
  count : Nat
  sum_latency : Nat
  sum_block_size : Nat
  deriving DecidableEq, Repr

def zero_bucket : LatencyBucket := ⟨0, 0, 0⟩

/-- The 64 all-zero buckets a freshly allocated (kzalloc) or memset model
histogram holds. -/
def zero_buckets : List LatencyBucket := List.replicate LM_LAT_BUCKET_COUNT zero_bucket

/-- Struct latency_model (adios.c lines 77-90); the two spinlocks are
dropped, the two 64-entry bucket arrays become lists of length 64. -/
structure LatencyModel where
  base : Nat
  slope : Nat
  small_sum_delay : Nat
  small_count : Nat
  large_sum_delay : Nat
  large_sum_bsize : Nat
  last_update_jiffies : Nat
  small_bucket : List LatencyBucket
  large_bucket : List LatencyBucket
  deriving DecidableEq, Repr

/-- Replace the bucket at a given index by applying f, leaving the rest
unchanged: the model of `model->small_bucket[bucket_index].count++; ...`. -/
def bucket_modify : List LatencyBucket → Nat → (LatencyBucket → LatencyBucket) →
    List LatencyBucket
  | [], _, _ => []
  | b :: rest, 0, f => f b :: rest
  | b :: rest, n + 1, f => b :: bucket_modify rest n f

/-- lm_count_small_entries (adios.c lines 143-148). -/
def lm_count_small_entries (model : LatencyModel) : Nat :=
  (model.small_bucket.map (fun b => b.count)).sum

/-- lm_count_large_entries (adios.c lines 214-219). -/
def lm_count_large_entries (model : LatencyModel) : Nat :=
  (model.large_bucket.map (fun b => b.count)).sum

/-- The outlier threshold count `(total_count * outlier_percentile) / 100`
with `outlier_percentile = 100` when `count_all` (adios.c lines 157-164,
230-237). -/
def trim_threshold (total_count : Nat) (count_all : Bool) : Nat :=
  (total_count * (if count_all then 100 else LM_OUTLIER_PERCENTILE)) / 100

/-- The two bucket walks of lm_update_small_buckets / lm_update_large_buckets
fused into one: walk the buckets accumulating full (count, latency, size)
sums until the cumulative count reaches the threshold; the threshold-crossing
bucket contributes only its proportional `remaining/count` share.  The
argument is the remaining threshold (threshold minus the counts already
passed), so the crossing test `cumulative_count >= threshold_count` becomes
`thr ≤ b.count`, and the C `remaining_count = threshold_count -
(cumulative_count - bucket->count)` is exactly `thr`.  Returns
(sum_latency, sum_count, sum_block_size).  In the C code, when no bucket
reaches the threshold the loop falls through with `outlier_threshold_bucket`
still 0; that is unreachable (the callers pass a threshold of at most the
total bucket count, and the cumulative count reaches the total), and this
model returns zero there. -/
def lm_trim : List LatencyBucket → Nat → Nat × Nat × Nat
  | [], _ => (0, 0, 0)
  | b :: rest, thr =>
    if thr ≤ b.count then
      if 0 < b.count then
        ((b.sum_latency * thr) / b.count, thr, (b.sum_block_size * thr) / b.count)
      else (0, 0, 0)
    else
      let r := lm_trim rest (thr - b.count)
      (b.sum_latency + r.1, b.count + r.2.1, b.sum_block_size + r.2.2)

/-- lm_update_small_buckets (adios.c lines 151-211): trim the small histogram
at the outlier percentile, shrink the running accumulators by
`x -= x >> LM_SHRINK_RESIST` once `small_count` reaches 10 million, fold the
trimmed aggregate in, and clear the histogram. -/
def lm_update_small_buckets (model : LatencyModel) (total_count : Nat)
    (count_all : Bool) : LatencyModel :=
  let threshold_count := trim_threshold total_count count_all
  let t := lm_trim model.small_bucket threshold_count
  let sum_latency := t.1
  let sum_count := t.2.1
  let model :=
    if 1000000 * LM_SHRINK_AT_MREQ ≤ model.small_count then
      if Nat.shiftRight model.small_count LM_SHRINK_RESIST ≠ 0 then
        { model with
          small_sum_delay :=
            model.small_sum_delay - Nat.shiftRight model.small_sum_delay LM_SHRINK_RESIST
          small_count :=
            model.small_count - Nat.shiftRight model.small_count LM_SHRINK_RESIST }
      else model
    else model
  { model with
    small_sum_delay := model.small_sum_delay + sum_latency
    small_count := model.small_count + sum_count
    small_bucket := zero_buckets }

/-- lm_update_large_buckets (adios.c lines 222-289): trim the large histogram,
shrink the accumulators once `large_sum_bsize` reaches 100 GiB, subtract the
intercept `base * threshold_count` from the trimmed latency sum when (and only
when) the sum exceeds it, fold in, and clear the histogram. -/
def lm_update_large_buckets (model : LatencyModel) (total_count : Nat)
    (count_all : Bool) : LatencyModel :=
  let threshold_count := trim_threshold total_count count_all
  let t := lm_trim model.large_bucket threshold_count
  let sum_block_size := t.2.2
  let model :=
    if 0x40000000 * LM_SHRINK_AT_GBYTES ≤ model.large_sum_bsize then
      if Nat.shiftRight model.large_sum_bsize LM_SHRINK_RESIST ≠ 0 then
        { model with
          large_sum_delay :=
            model.large_sum_delay - Nat.shiftRight model.large_sum_delay LM_SHRINK_RESIST
          large_sum_bsize :=
            model.large_sum_bsize - Nat.shiftRight model.large_sum_bsize LM_SHRINK_RESIST }
      else model
    else model
  let intercept := model.base * threshold_count
  let sum_latency := if intercept < t.1 then t.1 - intercept else t.1
  { model with
    large_sum_delay := model.large_sum_delay + sum_latency
    large_sum_bsize := model.large_sum_bsize + sum_block_size
    large_bucket := zero_buckets }

/-- latency_model_update (adios.c lines 292-337), with the kernel `jiffies`
clock passed in as `now`.  The small histogram is folded first, then the
large one; `base` and `slope` are recomputed from the accumulators
afterwards, and `last_update_jiffies` advances when `time_elapsed`. -/
def latency_model_update (model : LatencyModel) (now : Nat) : LatencyModel :=
  let time_elapsed := model.base = 0 ∨
    model.last_update_jiffies + msecs_to_jiffies LM_INTERVAL_THRESHOLD ≤ now
  let small_count := lm_count_small_entries model
  let large_count := lm_count_large_entries model
  let small_processed := small_count ≠ 0 ∧
    (time_elapsed ∨ LM_SAMPLES_THRESHOLD ≤ small_count ∨ model.base = 0)
  let large_processed := large_count ≠ 0 ∧
    (time_elapsed ∨ LM_SAMPLES_THRESHOLD ≤ large_count ∨ model.slope = 0)
  let m1 := if small_processed then
      lm_update_small_buckets model small_count (model.base = 0) else model
  let m2 := if large_processed then
      lm_update_large_buckets m1 large_count (model.slope = 0) else m1
  let m3 := if small_processed ∧ m2.small_count ≠ 0 then
      { m2 with base := m2.small_sum_delay / m2.small_count } else m2
  let m4 := if large_processed ∧ m3.large_sum_bsize ≠ 0 then
      { m3 with slope := m3.large_sum_delay / ((m3.large_sum_bsize + 1024 - 1) / 1024) }
    else m3
  if time_elapsed then { m4 with last_update_jiffies := now } else m4

/-- lm_input_bucket_index (adios.c lines 340-352); the unused `model`
parameter of the C function is dropped. -/
def lm_input_bucket_index (measured predicted : Nat) : Nat :=
  if measured < predicted * 2 then (measured * 20) / predicted
  else if measured < predicted * 5 then (measured * 10) / predicted + 20
  else (measured * 3) / predicted + 40

/-- latency_model_input (adios.c lines 355-398).  Small requests
(`block_size <= 4096`) are bucketed against `base ?: 1`; if `base` is still
zero the forced `latency_model_update` runs immediately.  Large requests are
bucketed against their own predicted latency and dropped entirely while
`base` or `pred_lat` is zero. -/
def latency_model_input (model : LatencyModel) (block_size latency pred_lat now : Nat) :
    LatencyModel :=
  if block_size ≤ LM_BLOCK_SIZE_THRESHOLD then
    let predicted := if model.base = 0 then 1 else model.base
    let bucket_index := lm_input_bucket_index latency predicted
    let bucket_index := if LM_LAT_BUCKET_COUNT ≤ bucket_index
      then LM_LAT_BUCKET_COUNT - 1 else bucket_index
    let model := { model with
      small_bucket := bucket_modify model.small_bucket bucket_index
        (fun b => { b with count := b.count + 1, sum_latency := b.sum_latency + latency }) }
    if model.base = 0 then latency_model_update model now else model
  else
    if model.base = 0 ∨ pred_lat = 0 then model
    else
      let bucket_index := lm_input_bucket_index latency pred_lat
      let bucket_index := if LM_LAT_BUCKET_COUNT ≤ bucket_index
        then LM_LAT_BUCKET_COUNT - 1 else bucket_index
      { model with
        large_bucket := bucket_modify model.large_bucket bucket_index
          (fun b => { b with count := b.count + 1, sum_latency := b.sum_latency + latency,
                             sum_block_size := b.sum_block_size + block_size }) }

/-- latency_model_predict (adios.c lines 401-412). -/
def latency_model_predict (model : LatencyModel) (block_size : Nat) : Nat :=
  let result := model.base
  if LM_BLOCK_SIZE_THRESHOLD < block_size then
    result + model.slope * ((block_size - LM_BLOCK_SIZE_THRESHOLD + 1024 - 1) / 1024)
  else result

/-- Enum adios_op_type (adios.c lines 35-41). -/
inductive AdiosOpType where
  | read
  | write
  | discard
  | other
  deriving DecidableEq, Repr

/-- A per-operation-type array of naturals (the model of
`u64 latency_target[ADIOS_OPTYPES]`, `u32 batch_limit[ADIOS_OPTYPES]`,
`unsigned int batch_count[...][ADIOS_OPTYPES]` and friends). -/
structure OpArray where
  read : Nat
  write : Nat
  discard : Nat
  other : Nat
  deriving DecidableEq, Repr

def OpArray.get (a : OpArray) : AdiosOpType → Nat
  | .read => a.read
  | .write => a.write
  | .discard => a.discard
  | .other => a.other

def OpArray.set (a : OpArray) : AdiosOpType → Nat → OpArray
  | .read, v => { a with read := v }
  | .write, v => { a with write := v }
  | .discard, v => { a with discard := v }
  | .other, v => { a with other := v }

def op_zero : OpArray := ⟨0, 0, 0, 0⟩

/-- Componentwise maximum, the model of the high-water update loop in
fill_batch_queues (adios.c lines 716-719). -/
def op_max (a b : OpArray) : OpArray :=
  ⟨max a.read b.read, max a.write b.write, max a.discard b.discard, max a.other b.other⟩

/-- Default latency targets (adios.c lines 44-49), in nanoseconds. -/
def default_latency_target : OpArray :=
  ⟨2 * 1000000, 750 * 1000000, 5000 * 1000000, 0⟩

/-- Default batch size limits (adios.c lines 52-57). -/
def default_batch_limit : OpArray := ⟨16, 8, 1, 1⟩

/-- A per-operation-type array of latency models
(`struct latency_model latency_model[ADIOS_OPTYPES]`). -/
structure ModelArray where
  read : LatencyModel
  write : LatencyModel
  discard : LatencyModel
  other : LatencyModel
  deriving DecidableEq, Repr

def ModelArray.get (a : ModelArray) : AdiosOpType → LatencyModel
  | .read => a.read
  | .write => a.write
  | .discard => a.discard
  | .other => a.other

def ModelArray.modify (a : ModelArray) : AdiosOpType → (LatencyModel → LatencyModel) →
    ModelArray
  | .read, f => { a with read := f a.read }
  | .write, f => { a with write := f a.write }
  | .discard, f => { a with discard := f a.discard }
  | .other, f => { a with other := f a.other }

/-- A per-operation-type array of request-id lists (one page of
`struct list_head batch_queue[..][ADIOS_OPTYPES]`). -/
structure OpLists where
  read : List Nat
  write : List Nat
  discard : List Nat
  other : List Nat
  deriving DecidableEq, Repr

def OpLists.get (a : OpLists) : AdiosOpType → List Nat
  | .read => a.read
  | .write => a.write
  | .discard => a.discard
  | .other => a.other

/-- list_add_tail of a request id onto one per-type batch list. -/
def OpLists.app (a : OpLists) : AdiosOpType → Nat → OpLists
  | .read, v => { a with read := a.read ++ [v] }
  | .write, v => { a with write := a.write ++ [v] }
  | .discard, v => { a with discard := a.discard ++ [v] }
  | .other, v => { a with other := a.other ++ [v] }

def op_lists_empty : OpLists := ⟨[], [], [], []⟩

/-- A block request as the scheduler core sees it: a stable handle (id), the
fields the host framework exposes (`rq->start_time_ns`, `blk_rq_bytes(rq)`),
and its operation class.  `adios_optype` (adios.c lines 415-427) derives the
class from `rq->cmd_flags`, which never changes while the request is queued;
the class is therefore carried as a field here. -/
structure Request where
  id : Nat
  start_time_ns : Nat
  bytes : Nat
  optype : AdiosOpType
  deriving DecidableEq, Repr

/-- adios_optype (adios.c lines 415-427): classify a request. -/
def adios_optype (rq : Request) : AdiosOpType := rq.optype

/-- Struct adios_rq_data (adios.c lines 132-140): the scheduler-private side
record.  The `dl_group` back-pointer is replaced by searching the tree for
the request id; the operation class is carried along (C recomputes it from
`rq->cmd_flags` on each use). -/
structure RqData where
  rq : Nat
  deadline : Nat
  pred_lat : Nat
  block_size : Nat
  optype : AdiosOpType
  deriving DecidableEq, Repr

/-- Struct dl_group (adios.c lines 125-129): one node of the deadline-sorted
tree, holding all requests that share one exact deadline. -/
structure DlGroup where
  deadline : Nat
  rqs : List RqData
  deriving DecidableEq, Repr

/-- The deadline-sorted red-black tree `rb_root_cached dl_tree`, abstracted
as its in-order group list (ascending deadline).  The C comparison
`s64 diff = rd->deadline - dl_group->deadline` is the natural-number
three-way comparison whenever the two u64 deadlines differ by less than
2^63, which every reachable pair of nanosecond-scale deadlines does. -/
def dl_insert : List DlGroup → Nat → RqData → List DlGroup
  | [], d, rd => [⟨d, [rd]⟩]
  | g :: rest, d, rd =>
    if d < g.deadline then ⟨d, [rd]⟩ :: g :: rest
    else if d = g.deadline then { g with rqs := g.rqs ++ [rd] } :: rest
    else g :: dl_insert rest d rd

/-- list_del of the first request with the given id from a group list. -/
def erase_rq : List RqData → Nat → List RqData
  | [], _ => []
  | r :: rest, rid => if r.rq = rid then rest else r :: erase_rq rest rid

/-- del_from_dl_tree (adios.c lines 480-491) on the abstract tree: detach the
request from its group's list; if the list becomes empty, unlink and free the
group.  The C code reaches the group through `rd->dl_group`; here it is found
by searching for the request id, which for a request actually linked in the
tree names the same group. -/
def dl_delete : List DlGroup → Nat → List DlGroup
  | [], _ => []
  | g :: rest, rid =>
    if g.rqs.any (fun r => r.rq = rid) then
      let rqs := erase_rq g.rqs rid
      if rqs = [] then rest else { g with rqs := rqs } :: rest
    else g :: dl_delete rest rid

/-- Struct adios_data (adios.c lines 95-122), locks, timer, memory pools and
`async_depth` dropped.  The two batch queue pages are the `0`/`1` suffixed
fields; `bq_page` selects the active one modulo 2. -/
structure AdiosData where
  prio_queue : List Nat
  dl_tree : List DlGroup
  bq_page : Nat
  more_bq_ready : Bool
  batch_queue0 : OpLists
  batch_queue1 : OpLists
  batch_count0 : OpArray
  batch_count1 : OpArray
  total_pred_lat : Nat
  latency_model : ModelArray
  batch_actual_max_size : OpArray
  batch_actual_max_total : Nat
  latency_target : OpArray
  batch_limit : OpArray
  deriving DecidableEq, Repr

def AdiosData.bqAt (ad : AdiosData) (page : Nat) : OpLists :=
  if page % 2 = 0 then ad.batch_queue0 else ad.batch_queue1

def AdiosData.bcAt (ad : AdiosData) (page : Nat) : OpArray :=
  if page % 2 = 0 then ad.batch_count0 else ad.batch_count1

def AdiosData.setBqAt (ad : AdiosData) (page : Nat) (v : OpLists) : AdiosData :=
  if page % 2 = 0 then { ad with batch_queue0 := v } else { ad with batch_queue1 := v }

def AdiosData.setBcAt (ad : AdiosData) (page : Nat) (v : OpArray) : AdiosData :=
  if page % 2 = 0 then { ad with batch_count0 := v } else { ad with batch_count1 := v }

/-- add_to_dl_tree (adios.c lines 435-477): read the request size, predict
its latency, compute `deadline = start_time_ns + latency_target[optype] +
pred_lat`, and insert into the tree keyed by that deadline — joining the
existing group on an exact deadline match, creating a new group otherwise.
The GFP_ATOMIC group-allocation-failure early return is not modelled. -/
def add_to_dl_tree (ad : AdiosData) (rq : Request) : AdiosData :=
  let block_size := rq.bytes
  let optype := adios_optype rq
  let pred_lat := latency_model_predict (ad.latency_model.get optype) block_size
  let deadline := rq.start_time_ns + ad.latency_target.get optype + pred_lat
  let rd : RqData := ⟨rq.id, deadline, pred_lat, block_size, optype⟩
  { ad with dl_tree := dl_insert ad.dl_tree deadline rd }

/-- del_from_dl_tree at the adios_data level. -/
def del_from_dl_tree (ad : AdiosData) (rid : Nat) : AdiosData :=
  { ad with dl_tree := dl_delete ad.dl_tree rid }

/-- The BLK_MQ_INSERT_AT_HEAD branch of insert_request (adios.c lines
589-594): `list_add(&rq->queuelist, &ad->prio_queue)` links the request at
the HEAD of the priority queue. -/
def insert_request_at_head (ad : AdiosData) (rid : Nat) : AdiosData :=
  { ad with prio_queue := rid :: ad.prio_queue }

/-- dispatch_from_pq (adios.c lines 766-776): take `list_first_entry` — the
head — of the priority queue, if any. -/
def dispatch_from_pq (ad : AdiosData) : Option Nat × AdiosData :=
  match ad.prio_queue with
  | [] => (none, ad)
  | r :: rest => (some r, { ad with prio_queue := rest })

/-- get_ealiest_request (adios.c lines 647-659): the first request of the
leftmost (earliest-deadline) group. -/
def get_ealiest_request : List DlGroup → Option RqData
  | [] => none
  | g :: _ => g.rqs.head?

/-- Total number of requests held in the tree; the fill loop removes one per
iteration, so this bounds its iteration count. -/
def dl_size (t : List DlGroup) : Nat := (t.map (fun g => g.rqs.length)).sum

/-- The loop state of fill_batch_queues: the tree, the inactive page's lists
and (freshly reset) counts, the outstanding-latency counter, the running
`current_lat`, the pass-local `count` and `optype_count`. -/
structure FillSt where
  tree : List DlGroup
  bq : OpLists
  bc : OpArray
  tpl : Nat
  cur : Nat
  cnt : Nat
  ocnt : OpArray
  deriving DecidableEq, Repr

/-- The `while (true)` loop of fill_batch_queues (adios.c lines 687-711),
fuelled by the tree size (each staged request leaves the tree, so
`dl_size` fuel never runs out).  Peek the earliest request; stop if none.
With at least one request already staged this pass, stop instead of staging
when the type's model is uncalibrated, its per-page count has reached the
type's cap, or the running predicted-latency sum would pass the window.
Otherwise remove the request from the tree, append it to the per-type list,
and bump the counters. -/
def fill_loop (gw : Nat) (models : ModelArray) (limits : OpArray) :
    Nat → FillSt → FillSt
  | 0, st => st
  | fuel + 1, st =>
    match get_ealiest_request st.tree with
    | none => st
    | some rd =>
      let cur := st.cur + rd.pred_lat
      if st.cnt ≠ 0 ∧ ((models.get rd.optype).base = 0 ∨
          limits.get rd.optype ≤ st.bc.get rd.optype ∨ gw < cur) then
        st
      else
        fill_loop gw models limits fuel
          { tree := dl_delete st.tree rd.rq
            bq := st.bq.app rd.optype rd.rq
            bc := st.bc.set rd.optype (st.bc.get rd.optype + 1)
            tpl := st.tpl + rd.pred_lat
            cur := cur
            cnt := st.cnt + 1
            ocnt := st.ocnt.set rd.optype (st.ocnt.get rd.optype + 1) }

/-- fill_batch_queues (adios.c lines 677-724) with the module-global
`global_latency_window` passed as `gw`: reset the inactive page's counts, run
the fill loop, and if anything was staged mark the page pre-filled and update
the high-water statistics.  Returns the staged count (C returns it boolean). -/
def fill_batch_queues (gw : Nat) (ad : AdiosData) (current_lat : Nat) :
    AdiosData × Nat :=
  let page := (ad.bq_page + 1) % 2
  let st0 : FillSt :=
    { tree := ad.dl_tree
      bq := ad.bqAt page
      bc := op_zero
      tpl := ad.total_pred_lat
      cur := current_lat
      cnt := 0
      ocnt := op_zero }
  let st := fill_loop gw ad.latency_model ad.batch_limit (dl_size ad.dl_tree) st0
  let ad := { ad with dl_tree := st.tree, total_pred_lat := st.tpl }
  let ad := ad.setBqAt page st.bq
  let ad := ad.setBcAt page st.bc
  let ad := if st.cnt ≠ 0 then
      { ad with
        more_bq_ready := true
        batch_actual_max_size := op_max ad.batch_actual_max_size st.ocnt
        batch_actual_max_total := max ad.batch_actual_max_total st.cnt }
    else ad
  (ad, st.cnt)

/-- The mutable state the sysfs stores touch: the per-queue adios_data plus
the two module-global tunables (adios.c lines 30-32). -/
structure SysState where
  ad : AdiosData
  global_latency_window : Nat
  bq_refill_below_ratio : Int
  deriving DecidableEq, Repr

/-- adios_lat_target_x_store (adios.c lines 962-976): parse the text as an
unsigned number (`none` models a kstrtoul failure); on success zero the
type's model `base` and set the target.  Returns the new state and a success
flag (C returns `count` or the negative kstrtoul error). -/
def adios_lat_target_store (s : SysState) (optype : AdiosOpType)
    (input : Option Nat) : SysState × Bool :=
  match input with
  | none => (s, false)
  | some nsec =>
    ({ s with ad := { s.ad with
        latency_model := s.ad.latency_model.modify optype (fun m => { m with base := 0 })
        latency_target := s.ad.latency_target.set optype nsec } }, true)

/-- adios_batch_limit_x_store (adios.c lines 982-995): reject a parse
failure or a zero value with -EINVAL, else set the type's batch cap. -/
def adios_batch_limit_store (s : SysState) (optype : AdiosOpType)
    (input : Option Nat) : SysState × Bool :=
  match input with
  | none => (s, false)
  | some max_batch =>
    if max_batch = 0 then (s, false)
    else ({ s with ad := { s.ad with
        batch_limit := s.ad.batch_limit.set optype max_batch } }, true)

/-- adios_global_latency_window_store (adios.c lines 1023-1035). -/
def adios_global_latency_window_store (s : SysState) (input : Option Nat) :
    SysState × Bool :=
  match input with
  | none => (s, false)
  | some nsec => ({ s with global_latency_window := nsec }, true)

/-- adios_bq_refill_below_ratio_store (adios.c lines 1050-1062): parse a
signed int; reject a parse failure or a ratio outside 0..100. -/
def adios_bq_refill_below_ratio_store (s : SysState) (input : Option Int) :
    SysState × Bool :=
  match input with
  | none => (s, false)
  | some ratio =>
    if ratio < 0 ∨ 100 < ratio then (s, false)
    else ({ s with bq_refill_below_ratio := ratio }, true)

/-- adios_reset_bq_stats_store (adios.c lines 1065-1081): reject a parse
failure or any value other than 1, else zero the high-water statistics. -/
def adios_reset_bq_stats_store (s : SysState) (input : Option Nat) :
    SysState × Bool :=
  match input with
  | none => (s, false)
  | some val =>
    if val ≠ 1 then (s, false)
    else ({ s with ad := { s.ad with
        batch_actual_max_size := op_zero
        batch_actual_max_total := 0 } }, true)

/-- adios_reset_lat_model_store (adios.c lines 1084-1108): reject a parse
failure or any value other than 1, else zero `base`, `slope` and the four
running accumulators of every model. -/
def adios_reset_lat_model_store (s : SysState) (input : Option Nat) :
    SysState × Bool :=
  match input with
  | none => (s, false)
  | some val =>
    if val ≠ 1 then (s, false)
    else
      let clear := fun (m : LatencyModel) => { m with
        base := 0, slope := 0, small_sum_delay := 0, small_count := 0,
        large_sum_delay := 0, large_sum_bsize := 0 }
      ({ s with ad := { s.ad with latency_model :=
          ⟨clear s.ad.latency_model.read, clear s.ad.latency_model.write,
           clear s.ad.latency_model.discard, clear s.ad.latency_model.other⟩ } }, true)

/-- A freshly initialised latency model (kzalloc plus adios_init_sched). -/
def lm_fresh : LatencyModel :=
  ⟨0, 0, 0, 0, 0, 0, 0, zero_buckets, zero_buckets⟩

/-- A freshly initialised scheduler instance (adios_init_sched, adios.c
lines 862-932): empty priority queue, empty tree, empty batch pages, fresh
models, default targets and limits. -/
def ad_fresh : AdiosData :=
  { prio_queue := []
    dl_tree := []
    bq_page := 0
    more_bq_ready := false
    batch_queue0 := op_lists_empty
    batch_queue1 := op_lists_empty
    batch_count0 := op_zero
    batch_count1 := op_zero
    total_pred_lat := 0
    latency_model := ⟨lm_fresh, lm_fresh, lm_fresh, lm_fresh⟩
    batch_actual_max_size := op_zero
    batch_actual_max_total := 0
    latency_target := default_latency_target
    batch_limit := default_batch_limit }

/-- The module state right after load: fresh scheduler data and the two
global tunables at their initial values (adios.c lines 30-32). -/
def sys_fresh : SysState := ⟨ad_fresh, 16000000, 15⟩

/-- One Deadline Index operation: an insertion of a request (the non-bypass
admit path, insert_request → add_to_dl_tree) or a removal by request id
(remove_request → del_from_dl_tree). -/
inductive DlOp where
  | ins (rq : Request)
  | del (rid : Nat)
  deriving DecidableEq, Repr

def apply_dl_op (ad : AdiosData) : DlOp → AdiosData
  | .ins rq => add_to_dl_tree ad rq
  | .del rid => del_from_dl_tree ad rid

def apply_dl_ops (ad : AdiosData) (ops : List DlOp) : AdiosData :=
  ops.foldl apply_dl_op ad

/-- The deadline tree's in-order group list is strictly increasing in
deadline (the abstraction of the red-black tree's search-order invariant). -/
def dl_sorted (t : List DlGroup) : Prop :=
  t.Pairwise (fun g1 g2 => g1.deadline < g2.deadline)

def dl_deadlines (t : List DlGroup) : List Nat := t.map (fun g => g.deadline)

/-- The request list of the group with the given deadline (empty when no
such group exists). -/
def dl_lookup : List DlGroup → Nat → List RqData
  | [], _ => []
  | g :: rest, d => if g.deadline = d then g.rqs else dl_lookup rest d

/-- The amount lm_update_large_buckets folds into `large_sum_delay`: the
trimmed latency sum, less the intercept `base * threshold_count` when (and
only when) the sum strictly exceeds it. -/
def large_fold_term (base threshold_count trimmed : Nat) : Nat :=
  if base * threshold_count < trimmed then trimmed - base * threshold_count else trimmed

/-- A model whose small accumulator sits at the 10-million-sample shrink
ceiling with one pending small sample of latency 0; exercises the shrink
step of lm_update_small_buckets. -/
def mC2 : LatencyModel :=
  { base := 1, slope := 0, small_sum_delay := 40000000, small_count := 10000000,
    large_sum_delay := 0, large_sum_bsize := 0, last_update_jiffies := 0,
    small_bucket := ⟨1, 0, 0⟩ :: List.replicate 63 zero_bucket,
    large_bucket := zero_buckets }

/-- A model whose large accumulator sits at the 100-GiB shrink ceiling with
one pending large sample; exercises the shrink step of
lm_update_large_buckets. -/
def mC2L : LatencyModel :=
  { base := 0, slope := 1, small_sum_delay := 0, small_count := 0,
    large_sum_delay := 80, large_sum_bsize := 107374182400, last_update_jiffies := 0,
    small_bucket := zero_buckets,
    large_bucket := ⟨1, 0, 0⟩ :: List.replicate 63 zero_bucket }

/-- A calibrated model (base 100) with one pending large sample whose
latency 5 is far below the intercept; exercises the conditional intercept
subtraction of lm_update_large_buckets. -/
def mC3 : LatencyModel :=
  { base := 100, slope := 1, small_sum_delay := 0, small_count := 0,
    large_sum_delay := 0, large_sum_bsize := 0, last_update_jiffies := 0,
    small_bucket := zero_buckets,
    large_bucket := ⟨1, 5, 8192⟩ :: List.replicate 63 zero_bucket }

/-- An uncalibrated model (base 0) with empty histograms but STALE small
accumulators (small_sum_delay 10 over small_count 2), as left behind by a
latency-target store that zeroes `base` without clearing the accumulators. -/
def mC8 : LatencyModel :=
  { base := 0, slope := 0, small_sum_delay := 10, small_count := 2,
    large_sum_delay := 0, large_sum_bsize := 0, last_update_jiffies := 0,
    small_bucket := zero_buckets, large_bucket := zero_buckets }

/-- A single pending read request of 4096 bytes with predicted latency 50
and deadline 100, used to exercise the fill pass. -/
def rd_w : RqData := ⟨1, 100, 50, 4096, .read⟩

/-- A scheduler state holding just `rd_w` in the Deadline Index. -/
def ad_w : AdiosData := { ad_fresh with dl_tree := [⟨100, [rd_w]⟩] }

/-- A mid-pass fill state with one request already staged (cnt 1), used to
exercise the stop conditions of the fill loop. -/
def st_w : FillSt :=
  { tree := [⟨100, [rd_w]⟩], bq := op_lists_empty, bc := op_zero,
    tpl := 0, cur := 0, cnt := 1, ocnt := op_zero }

/-- Two read requests with identical arrival time and size; under the fresh
model (predict 0) and default read target both compute deadline
100 + 2000000 + 0 = 2000100 and land in the same group. -/
def rq_w1 : Request := ⟨11, 100, 4096, .read⟩

def rq_w2 : Request := ⟨12, 100, 4096, .read⟩

/-- Two concrete pending records sharing deadline 5, used to exercise
group append and removal. -/
def rd_wA : RqData := ⟨21, 5, 0, 512, .write⟩

def rd_wB : RqData := ⟨22, 5, 0, 512, .write⟩

/- Theorems. -/

/-- C4: for every model state and request size, `latency_model_predict`
returns `base` when the size is at most the 4096-byte block-size threshold,
and `base + slope * ceil((size - 4096) / 1024)` when it exceeds it. -/
theorem latency_model_predict_spec (m : LatencyModel) (block_size : Nat) :
    latency_model_predict m block_size =
      if block_size ≤ LM_BLOCK_SIZE_THRESHOLD then m.base
      else m.base + m.slope * ((block_size - LM_BLOCK_SIZE_THRESHOLD) ⌈/⌉ 1024) := by
  rcases le_or_lt block_size LM_BLOCK_SIZE_THRESHOLD with h | h
  · simp [latency_model_predict, h, Nat.not_lt.mpr h]
  · simp [latency_model_predict, h, Nat.not_le.mpr h, Nat.ceilDiv_eq_add_pred_div]

/-- C10: storing any successfully parsed per-type latency target succeeds,
zeroes that type's latency-model `base` (returning it to the uncalibrated
state), and sets the target to the parsed value. -/
theorem adios_lat_target_store_resets_base (s : SysState) (optype : AdiosOpType)
    (nsec : Nat) :
    (adios_lat_target_store s optype (some nsec)).2 = true ∧
    ((adios_lat_target_store s optype (some nsec)).1.ad.latency_model.get optype).base = 0 ∧
    (adios_lat_target_store s optype (some nsec)).1.ad.latency_target.get optype = nsec := by
  cases optype <;>
    simp [adios_lat_target_store, ModelArray.modify, ModelArray.get, OpArray.set, OpArray.get]

/-- C9: every runtime-tunable store rejects malformed input (a kstrtoul /
kstrtoint parse failure, modelled as `none`) and out-of-range input (a batch
cap of zero, a refill ratio outside 0..100, a reset value other than 1) with
an error, returning the configuration and model state unchanged. -/
theorem tunable_store_reject_spec :
    (∀ (s : SysState) (optype : AdiosOpType),
        adios_lat_target_store s optype none = (s, false))
    ∧ (∀ (s : SysState) (optype : AdiosOpType) (input : Option Nat),
        input = none ∨ input = some 0 →
        adios_batch_limit_store s optype input = (s, false))
    ∧ (∀ (s : SysState), adios_global_latency_window_store s none = (s, false))
    ∧ (∀ (s : SysState) (input : Option Int),
        input = none ∨ (∃ r, input = some r ∧ (r < 0 ∨ 100 < r)) →
        adios_bq_refill_below_ratio_store s input = (s, false))
    ∧ (∀ (s : SysState) (input : Option Nat),
        input = none ∨ (∃ v, input = some v ∧ v ≠ 1) →
        adios_reset_bq_stats_store s input = (s, false))
    ∧ (∀ (s : SysState) (input : Option Nat),
        input = none ∨ (∃ v, input = some v ∧ v ≠ 1) →
        adios_reset_lat_model_store s input = (s, false)) := by
  refine ⟨fun s optype => rfl, ?_, fun s => rfl, ?_, ?_, ?_⟩
  · rintro s optype input (rfl | rfl)
    · rfl
    · simp [adios_batch_limit_store]
  · rintro s input (rfl | ⟨r, rfl, hr⟩)
    · rfl
    · simp [adios_bq_refill_below_ratio_store, hr]
  · rintro s input (rfl | ⟨v, rfl, hv⟩)
    · rfl
    · simp [adios_reset_bq_stats_store, hv]
  · rintro s input (rfl | ⟨v, rfl, hv⟩)
    · rfl
    · simp [adios_reset_lat_model_store, hv]

/-- Witness for C9: the rejections at the freshly loaded module state, one
concrete bad input per store. -/
theorem tunable_store_reject_witness :
    adios_lat_target_store sys_fresh .read none = (sys_fresh, false)
    ∧ adios_batch_limit_store sys_fresh .write (some 0) = (sys_fresh, false)
    ∧ adios_global_latency_window_store sys_fresh none = (sys_fresh, false)
    ∧ adios_bq_refill_below_ratio_store sys_fresh (some 101) = (sys_fresh, false)
    ∧ adios_reset_bq_stats_store sys_fresh (some 2) = (sys_fresh, false)
    ∧ adios_reset_lat_model_store sys_fresh none = (sys_fresh, false) :=
  ⟨tunable_store_reject_spec.1 sys_fresh .read,
   tunable_store_reject_spec.2.1 sys_fresh .write (some 0) (Or.inr rfl),
   tunable_store_reject_spec.2.2.1 sys_fresh,
   tunable_store_reject_spec.2.2.2.1 sys_fresh (some 101)
     (Or.inr ⟨101, rfl, Or.inr (by decide)⟩),
   tunable_store_reject_spec.2.2.2.2.1 sys_fresh (some 2)
     (Or.inr ⟨2, rfl, by decide⟩),
   tunable_store_reject_spec.2.2.2.2.2 sys_fresh none (Or.inl rfl)⟩

/-- Folding head-insertions (the BLK_MQ_INSERT_AT_HEAD branch) onto the
priority queue prepends the admitted ids in reverse order. -/
theorem prio_push_foldl (rids : List Nat) (ad : AdiosData) :
    (rids.foldl insert_request_at_head ad).prio_queue = rids.reverse ++ ad.prio_queue := by
  induction rids generalizing ad with
  | nil => simp
  | cons r rest ih =>
    rw [List.foldl_cons, ih]
    simp [insert_request_at_head]

/-- dispatch_from_pq returns the head of the priority queue. -/
theorem dispatch_from_pq_head (ad : AdiosData) :
    (dispatch_from_pq ad).1 = ad.prio_queue.head? := by
  unfold dispatch_from_pq
  cases ad.prio_queue <;> simp

/-- C1 counterexample: the Priority Lane is NOT FIFO.  Starting from an
empty priority queue and bypass-admitting requests 1 then 2, the first pop
returns 2 (the latest admit), not 1 (the earliest): head insertion via
`list_add` combined with head removal via `list_first_entry` is a stack. -/
theorem prio_lane_fifo_refuted :
    ¬ (∀ (ad : AdiosData) (rids : List Nat), ad.prio_queue = [] → rids ≠ [] →
        (dispatch_from_pq (rids.foldl insert_request_at_head ad)).1 = rids.head?) := by
  intro h
  have h2 := h ad_fresh [1, 2] rfl (by decide)
  exact absurd h2 (by decide)

/-- C1 amended: the Priority Lane delivers bypass requests in LIFO order.
For every sequence of head-insertion admits starting from an empty priority
queue, the queue holds the ids in reverse admission order and the first
priority-lane pop returns the request admitted latest. -/
theorem prio_lane_lifo (ad : AdiosData) (rids : List Nat) (h : ad.prio_queue = []) :
    (rids.foldl insert_request_at_head ad).prio_queue = rids.reverse ∧
    (dispatch_from_pq (rids.foldl insert_request_at_head ad)).1 = rids.getLast? := by
  have h1 := prio_push_foldl rids ad
  rw [h, List.append_nil] at h1
  exact ⟨h1, by rw [dispatch_from_pq_head, h1, List.head?_reverse]⟩

/-- Witness for the amended C1: admitting 3 then 7 leaves the queue as
[7, 3] and pops 7 first. -/
theorem prio_lane_lifo_witness :
    (([3, 7] : List Nat).foldl insert_request_at_head ad_fresh).prio_queue = [7, 3] ∧
    (dispatch_from_pq (([3, 7] : List Nat).foldl insert_request_at_head ad_fresh)).1
      = some 7 := by
  have h := prio_lane_lifo ad_fresh [3, 7] rfl
  simpa using h

/-- The C `x >> LM_SHRINK_RESIST` is division by four. -/
theorem nat_shiftRight_resist (x : Nat) : Nat.shiftRight x LM_SHRINK_RESIST = x / 4 := by
  show x >>> 2 = x / 4
  rw [Nat.shiftRight_eq_div_pow]

/-- C2 amended: when the small accumulator has reached its 10-million-sample
ceiling, `small_sum_delay` and `small_count` are reduced by one quarter
(`x -= x >> 2`), NOT halved, before the trimmed aggregate is folded in;
below the ceiling they are folded into unreduced; likewise for
`large_sum_delay`/`large_sum_bsize` at the 100 GiB ceiling. -/
theorem lm_shrink_quarter :
    (∀ (m : LatencyModel) (tc : Nat) (ca : Bool),
        1000000 * LM_SHRINK_AT_MREQ ≤ m.small_count →
        (lm_update_small_buckets m tc ca).small_sum_delay
          = m.small_sum_delay - m.small_sum_delay / 4
            + (lm_trim m.small_bucket (trim_threshold tc ca)).1
        ∧ (lm_update_small_buckets m tc ca).small_count
          = m.small_count - m.small_count / 4
            + (lm_trim m.small_bucket (trim_threshold tc ca)).2.1)
    ∧ (∀ (m : LatencyModel) (tc : Nat) (ca : Bool),
        m.small_count < 1000000 * LM_SHRINK_AT_MREQ →
        (lm_update_small_buckets m tc ca).small_sum_delay
          = m.small_sum_delay + (lm_trim m.small_bucket (trim_threshold tc ca)).1
        ∧ (lm_update_small_buckets m tc ca).small_count
          = m.small_count + (lm_trim m.small_bucket (trim_threshold tc ca)).2.1)
    ∧ (∀ (m : LatencyModel) (tc : Nat) (ca : Bool),
        0x40000000 * LM_SHRINK_AT_GBYTES ≤ m.large_sum_bsize →
        (lm_update_large_buckets m tc ca).large_sum_delay
          = m.large_sum_delay - m.large_sum_delay / 4
            + large_fold_term m.base (trim_threshold tc ca)
                (lm_trim m.large_bucket (trim_threshold tc ca)).1
        ∧ (lm_update_large_buckets m tc ca).large_sum_bsize
          = m.large_sum_bsize - m.large_sum_bsize / 4
            + (lm_trim m.large_bucket (trim_threshold tc ca)).2.2)
    ∧ (∀ (m : LatencyModel) (tc : Nat) (ca : Bool),
        m.large_sum_bsize < 0x40000000 * LM_SHRINK_AT_GBYTES →
        (lm_update_large_buckets m tc ca).large_sum_delay
          = m.large_sum_delay
            + large_fold_term m.base (trim_threshold tc ca)
                (lm_trim m.large_bucket (trim_threshold tc ca)).1
        ∧ (lm_update_large_buckets m tc ca).large_sum_bsize
          = m.large_sum_bsize + (lm_trim m.large_bucket (trim_threshold tc ca)).2.2) := by
  refine ⟨?_, ?_, ?_, ?_⟩
  · intro m tc ca h
    have hg : m.small_count / 4 ≠ 0 := by
      have h4 : 4 ≤ m.small_count := by
        simp only [LM_SHRINK_AT_MREQ] at h; omega
      have := Nat.div_pos h4 (by norm_num)
      omega
    simp only [lm_update_small_buckets, nat_shiftRight_resist]
    rw [if_pos h, if_pos hg]
    exact ⟨rfl, rfl⟩
  · intro m tc ca h
    have hn : ¬ 1000000 * LM_SHRINK_AT_MREQ ≤ m.small_count := Nat.not_le.mpr h
    simp only [lm_update_small_buckets, nat_shiftRight_resist]
    rw [if_neg hn]
    exact ⟨rfl, rfl⟩
  · intro m tc ca h
    have hg : m.large_sum_bsize / 4 ≠ 0 := by
      have h4 : 4 ≤ m.large_sum_bsize := by
        simp only [LM_SHRINK_AT_GBYTES] at h; omega
      have := Nat.div_pos h4 (by norm_num)
      omega
    simp only [lm_update_large_buckets, nat_shiftRight_resist, large_fold_term]
    rw [if_pos h, if_pos hg]
    exact ⟨rfl, rfl⟩
  · intro m tc ca h
    have hn : ¬ 0x40000000 * LM_SHRINK_AT_GBYTES ≤ m.large_sum_bsize := Nat.not_le.mpr h
    simp only [lm_update_large_buckets, nat_shiftRight_resist, large_fold_term]
    rw [if_neg hn]
    exact ⟨rfl, rfl⟩

/-- C2 counterexample: with the small accumulator exactly at the ceiling
(small_count = 10^7, small_sum_delay = 4*10^7) and one pending sample of
latency 0, the pass leaves small_sum_delay at 3*10^7 — three quarters of the
old value plus the (zero) trimmed aggregate — not at the halved 2*10^7 the
claim requires. -/
theorem lm_shrink_halving_refuted :
    ¬ ((lm_update_small_buckets mC2 1 false).small_sum_delay
        = mC2.small_sum_delay / 2
          + (lm_trim mC2.small_bucket (trim_threshold 1 false)).1) := by
  decide

/-- Witness for the amended C2, at the concrete ceiling states mC2 (small)
and mC2L (large). -/
theorem lm_shrink_quarter_witness :
    (1000000 * LM_SHRINK_AT_MREQ ≤ mC2.small_count
      ∧ (lm_update_small_buckets mC2 1 false).small_sum_delay
          = mC2.small_sum_delay - mC2.small_sum_delay / 4
            + (lm_trim mC2.small_bucket (trim_threshold 1 false)).1)
    ∧ (0x40000000 * LM_SHRINK_AT_GBYTES ≤ mC2L.large_sum_bsize
      ∧ (lm_update_large_buckets mC2L 1 false).large_sum_bsize
          = mC2L.large_sum_bsize - mC2L.large_sum_bsize / 4
            + (lm_trim mC2L.large_bucket (trim_threshold 1 false)).2.2) :=
  ⟨⟨by decide, (lm_shrink_quarter.1 mC2 1 false (by decide)).1⟩,
   ⟨by decide, (lm_shrink_quarter.2.2.1 mC2L 1 false (by decide)).2⟩⟩

/-- C3 amended: in a large-histogram pass the intercept
`base * threshold_count` is subtracted from the trimmed latency sum only
when the sum strictly exceeds it; otherwise the trimmed sum is added to
`large_sum_delay` uncorrected. -/
theorem lm_intercept_conditional (m : LatencyModel) (tc : Nat) (ca : Bool) :
    (m.base * trim_threshold tc ca < (lm_trim m.large_bucket (trim_threshold tc ca)).1 →
      (lm_update_large_buckets m tc ca).large_sum_delay
        = (if 0x40000000 * LM_SHRINK_AT_GBYTES ≤ m.large_sum_bsize
            then m.large_sum_delay - m.large_sum_delay / 4 else m.large_sum_delay)
          + ((lm_trim m.large_bucket (trim_threshold tc ca)).1
              - m.base * trim_threshold tc ca))
    ∧ ((lm_trim m.large_bucket (trim_threshold tc ca)).1 ≤ m.base * trim_threshold tc ca →
      (lm_update_large_buckets m tc ca).large_sum_delay
        = (if 0x40000000 * LM_SHRINK_AT_GBYTES ≤ m.large_sum_bsize
            then m.large_sum_delay - m.large_sum_delay / 4 else m.large_sum_delay)
          + (lm_trim m.large_bucket (trim_threshold tc ca)).1) := by
  by_cases hs : 0x40000000 * LM_SHRINK_AT_GBYTES ≤ m.large_sum_bsize
  · have hg : m.large_sum_bsize / 4 ≠ 0 := by
      have h4 : 4 ≤ m.large_sum_bsize := by
        simp only [LM_SHRINK_AT_GBYTES] at hs; omega
      have := Nat.div_pos h4 (by norm_num)
      omega
    rw [if_pos hs]
    constructor
    · intro hlt
      simp only [lm_update_large_buckets, nat_shiftRight_resist]
      rw [if_pos hs, if_pos hg]
      simp [hlt]
    · intro hle
      have hn : ¬ m.base * trim_threshold tc ca
          < (lm_trim m.large_bucket (trim_threshold tc ca)).1 := Nat.not_lt.mpr hle
      simp only [lm_update_large_buckets, nat_shiftRight_resist]
      rw [if_pos hs, if_pos hg]
      simp [hn]
  · rw [if_neg hs]
    constructor
    · intro hlt
      simp only [lm_update_large_buckets, nat_shiftRight_resist]
      rw [if_neg hs]
      simp [hlt]
    · intro hle
      have hn : ¬ m.base * trim_threshold tc ca
          < (lm_trim m.large_bucket (trim_threshold tc ca)).1 := Nat.not_lt.mpr hle
      simp only [lm_update_large_buckets, nat_shiftRight_resist]
      rw [if_neg hs]
      simp [hn]

/-- C3 counterexample: at mC3 (base 100, one large sample of latency 5,
threshold count 1) the trimmed sum 5 does not exceed the intercept 100, so
nothing is subtracted and large_sum_delay becomes 5 — not the
old + (trimmed - intercept) = -95 the unconditional claim requires. -/
theorem lm_intercept_unconditional_refuted :
    ¬ (((lm_update_large_buckets mC3 1 true).large_sum_delay : Int)
        = (mC3.large_sum_delay : Int)
          + (((lm_trim mC3.large_bucket (trim_threshold 1 true)).1 : Int)
              - ((mC3.base * trim_threshold 1 true : Nat) : Int))) := by
  decide

/-- Witness for the amended C3 at mC3: the trimmed sum is below the
intercept and is folded in uncorrected. -/
theorem lm_intercept_conditional_witness :
    (lm_trim mC3.large_bucket (trim_threshold 1 true)).1
        ≤ mC3.base * trim_threshold 1 true
    ∧ (lm_update_large_buckets mC3 1 true).large_sum_delay
        = (if 0x40000000 * LM_SHRINK_AT_GBYTES ≤ mC3.large_sum_bsize
            then mC3.large_sum_delay - mC3.large_sum_delay / 4 else mC3.large_sum_delay)
          + (lm_trim mC3.large_bucket (trim_threshold 1 true)).1 :=
  ⟨by decide, (lm_intercept_conditional mC3 1 true).2 (by decide)⟩

/-- Bumping one bucket of an all-zero histogram leaves a total entry count
of exactly one. -/
theorem count_bucket_modify_replicate (n idx L : Nat) (h : idx < n) :
    ((bucket_modify (List.replicate n zero_bucket) idx
        (fun b => { b with count := b.count + 1, sum_latency := b.sum_latency + L })).map
      (fun b => b.count)).sum = 1 := by
  induction n generalizing idx with
  | zero => omega
  | succ n ih =>
    cases idx with
    | zero =>
      simp [List.replicate_succ, bucket_modify, zero_bucket, List.map_replicate,
        List.sum_replicate]
    | succ i =>
      simp only [List.replicate_succ, bucket_modify, List.map_cons, List.sum_cons]
      rw [ih i (by omega)]
      simp [zero_bucket]

/-- Trimming an all-zero histogram with one bucket bumped to (count 1,
latency L) at threshold 1 yields exactly (L, 1, 0). -/
theorem lm_trim_bucket_modify_replicate (n idx L : Nat) (h : idx < n) :
    lm_trim (bucket_modify (List.replicate n zero_bucket) idx
      (fun b => { b with count := b.count + 1, sum_latency := b.sum_latency + L })) 1
      = (L, 1, 0) := by
  induction n generalizing idx with
  | zero => omega
  | succ n ih =>
    cases idx with
    | zero =>
      simp [List.replicate_succ, bucket_modify, zero_bucket, lm_trim]
    | succ i =>
      have hr := ih i (by omega)
      simp only [List.replicate_succ, bucket_modify, lm_trim]
      rw [if_neg (by simp [zero_bucket])]
      simp only [Nat.sub_zero, zero_bucket] at hr ⊢
      rw [hr]
      simp

/-- An all-zero histogram holds no entries. -/
theorem count_zero_buckets : ((zero_buckets.map (fun b => b.count)).sum) = 0 := by
  simp [zero_buckets, zero_bucket, List.map_replicate, List.sum_replicate]

/-- The forced update on a bootstrap model: if `base`, the small
accumulators and the large histogram are all zero and the small histogram
holds exactly one sample of latency L, `latency_model_update` sets `base`
to exactly L. -/
theorem lm_update_bootstrap (m : LatencyModel) (now L : Nat)
    (hbase : m.base = 0) (hsd : m.small_sum_delay = 0) (hsc : m.small_count = 0)
    (hcount : lm_count_small_entries m = 1)
    (htrim : lm_trim m.small_bucket 1 = (L, 1, 0))
    (hlcount : lm_count_large_entries m = 0) :
    (latency_model_update m now).base = L := by
  simp only [latency_model_update, hcount, hlcount, hbase]
  simp only [eq_self_iff_true, true_or, if_true, ne_eq, not_true_eq_false,
    false_and, if_false, one_ne_zero, not_false_eq_true, true_and, or_true, if_true]
  simp only [lm_update_small_buckets]
  rw [show trim_threshold 1 (decide True) = 1 from rfl, htrim]
  simp only [hsc, hsd]
  norm_num [LM_SHRINK_AT_MREQ]
  rw [hsd, hsc]
  norm_num

/-- C8 counterexample: an uncalibrated model (base = 0) with empty
histograms but stale accumulators (small_sum_delay 10 over small_count 2,
as left by a latency-target store) that observes one small sample of
latency 3 ends with base = (10+3)/(2+1) = 4, not 3. -/
theorem lm_bootstrap_refuted :
    (latency_model_input mC8 4096 3 0 0).base ≠ 3 := by
  decide

/-- C8 amended: if a model is uncalibrated (base = 0), its histograms are
empty AND its small running accumulators are zero (a fresh or fully reset
model), then a single small sample of measured latency L triggers the
immediate forced update and sets base to exactly L. -/
theorem lm_bootstrap_first_sample (m : LatencyModel) (block_size latency pred_lat now : Nat)
    (hbs : block_size ≤ LM_BLOCK_SIZE_THRESHOLD)
    (hbase : m.base = 0) (hsd : m.small_sum_delay = 0) (hsc : m.small_count = 0)
    (hsb : m.small_bucket = zero_buckets) (hlb : m.large_bucket = zero_buckets) :
    (latency_model_input m block_size latency pred_lat now).base = latency := by
  have hidx : (if LM_LAT_BUCKET_COUNT ≤ lm_input_bucket_index latency 1
      then LM_LAT_BUCKET_COUNT - 1 else lm_input_bucket_index latency 1)
      < LM_LAT_BUCKET_COUNT := by
    simp only [LM_LAT_BUCKET_COUNT]
    split <;> omega
  simp only [latency_model_input, if_pos hbs, hbase, eq_self_iff_true, if_true]
  apply lm_update_bootstrap
  · rfl
  · simpa using hsd
  · simpa using hsc
  · simp only [lm_count_small_entries, hsb, zero_buckets]
    exact count_bucket_modify_replicate _ _ _ hidx
  · simp only [hsb, zero_buckets]
    exact lm_trim_bucket_modify_replicate _ _ _ hidx
  · simp only [lm_count_large_entries, hlb]
    exact count_zero_buckets

/-- Witness for the amended C8: a fresh model observing a small sample of
latency 3 calibrates base to exactly 3. -/
theorem lm_bootstrap_first_sample_witness :
    lm_fresh.base = 0 ∧ (latency_model_input lm_fresh 4096 3 0 0).base = 3 :=
  ⟨rfl, lm_bootstrap_first_sample lm_fresh 4096 3 0 0 (by decide) rfl rfl rfl rfl rfl⟩

/-- Insertion always lands the record in a group carrying exactly its
deadline. -/
theorem dl_insert_mem (t : List DlGroup) (d : Nat) (rd : RqData) :
    ∃ g ∈ dl_insert t d rd, g.deadline = d ∧ rd ∈ g.rqs := by
  induction t with
  | nil => exact ⟨⟨d, [rd]⟩, by simp [dl_insert], rfl, by simp⟩
  | cons g rest ih =>
    by_cases h1 : d < g.deadline
    · exact ⟨⟨d, [rd]⟩, by simp [dl_insert, h1], rfl, by simp⟩
    · by_cases h2 : d = g.deadline
      · refine ⟨{ g with rqs := g.rqs ++ [rd] }, ?_, h2.symm, by simp⟩
        simp [dl_insert, h1, h2]
      · obtain ⟨g2, hg2, hd2, hm2⟩ := ih
        exact ⟨g2, by simp [dl_insert, h1, h2, hg2], hd2, hm2⟩

/-- C6: for every scheduler state and request, add_to_dl_tree computes the
deadline as arrival time (start_time_ns) plus the configured latency target
for the request's operation type plus the model-predicted latency for its
size, and inserts the request into the tree under a group keyed by exactly
that deadline. -/
theorem add_to_dl_tree_deadline_spec (ad : AdiosData) (rq : Request) :
    ∃ g ∈ (add_to_dl_tree ad rq).dl_tree,
      g.deadline = rq.start_time_ns + ad.latency_target.get (adios_optype rq)
          + latency_model_predict (ad.latency_model.get (adios_optype rq)) rq.bytes
      ∧ (⟨rq.id,
            rq.start_time_ns + ad.latency_target.get (adios_optype rq)
              + latency_model_predict (ad.latency_model.get (adios_optype rq)) rq.bytes,
            latency_model_predict (ad.latency_model.get (adios_optype rq)) rq.bytes,
            rq.bytes, adios_optype rq⟩ : RqData) ∈ g.rqs := by
  have h := dl_insert_mem ad.dl_tree
    (rq.start_time_ns + ad.latency_target.get (adios_optype rq)
      + latency_model_predict (ad.latency_model.get (adios_optype rq)) rq.bytes)
    ⟨rq.id,
      rq.start_time_ns + ad.latency_target.get (adios_optype rq)
        + latency_model_predict (ad.latency_model.get (adios_optype rq)) rq.bytes,
      latency_model_predict (ad.latency_model.get (adios_optype rq)) rq.bytes,
      rq.bytes, adios_optype rq⟩
  simpa [add_to_dl_tree] using h

/-- Every group of the post-insertion tree carries either the inserted
deadline or the deadline of a pre-existing group. -/
theorem mem_dl_insert_deadline {d : Nat} {rd : RqData} :
    ∀ {t : List DlGroup} {g2 : DlGroup}, g2 ∈ dl_insert t d rd →
      g2.deadline = d ∨ ∃ g3 ∈ t, g2.deadline = g3.deadline := by
  intro t
  induction t with
  | nil =>
    intro g2 hg2
    simp only [dl_insert, List.mem_singleton] at hg2
    subst hg2
    exact Or.inl rfl
  | cons g rest ih =>
    intro g2 hg2
    simp only [dl_insert] at hg2
    by_cases h1 : d < g.deadline
    · rw [if_pos h1] at hg2
      rcases List.mem_cons.mp hg2 with rfl | hg2b
      · exact Or.inl rfl
      · exact Or.inr ⟨g2, hg2b, rfl⟩
    · rw [if_neg h1] at hg2
      by_cases h2 : d = g.deadline
      · rw [if_pos h2] at hg2
        rcases List.mem_cons.mp hg2 with rfl | hg2b
        · exact Or.inl h2.symm
        · exact Or.inr ⟨g2, List.mem_cons.mpr (Or.inr hg2b), rfl⟩
      · rw [if_neg h2] at hg2
        rcases List.mem_cons.mp hg2 with rfl | hg2b
        · exact Or.inr ⟨g2, List.mem_cons.mpr (Or.inl rfl), rfl⟩
        · rcases ih hg2b with hd | ⟨g3, hg3, he⟩
          · exact Or.inl hd
          · exact Or.inr ⟨g3, List.mem_cons.mpr (Or.inr hg3), he⟩

/-- dl_insert preserves strict deadline sortedness. -/
theorem dl_insert_sorted (d : Nat) (rd : RqData) :
    ∀ (t : List DlGroup), dl_sorted t → dl_sorted (dl_insert t d rd) := by
  intro t
  induction t with
  | nil => intro _; simp [dl_insert, dl_sorted]
  | cons g rest ih =>
    intro hs
    rw [dl_sorted, List.pairwise_cons] at hs
    obtain ⟨hg, hrest⟩ := hs
    simp only [dl_insert]
    by_cases h1 : d < g.deadline
    · rw [if_pos h1, dl_sorted, List.pairwise_cons]
      refine ⟨?_, ?_⟩
      · intro b hb
        rcases List.mem_cons.mp hb with rfl | hb2
        · exact h1
        · exact h1.trans (hg b hb2)
      · rw [List.pairwise_cons]
        exact ⟨hg, hrest⟩
    · rw [if_neg h1]
      by_cases h2 : d = g.deadline
      · rw [if_pos h2, dl_sorted, List.pairwise_cons]
        exact ⟨hg, hrest⟩
      · rw [if_neg h2, dl_sorted, List.pairwise_cons]
        refine ⟨?_, ih hrest⟩
        intro b hb
        have hgd : g.deadline < d := by omega
        rcases mem_dl_insert_deadline hb with hbd | ⟨g3, hg3, he⟩
        · rw [hbd]; exact hgd
        · rw [he]; exact hg g3 hg3

/-- Every group of the post-deletion tree carries the deadline of a
pre-existing group. -/
theorem mem_dl_delete_deadline {rid : Nat} :
    ∀ {t : List DlGroup} {g2 : DlGroup}, g2 ∈ dl_delete t rid →
      ∃ g3 ∈ t, g2.deadline = g3.deadline := by
  intro t
  induction t with
  | nil => intro g2 hg2; simp [dl_delete] at hg2
  | cons g rest ih =>
    intro g2 hg2
    simp only [dl_delete] at hg2
    by_cases h1 : (g.rqs.any fun r => r.rq = rid) = true
    · rw [if_pos h1] at hg2
      by_cases h2 : erase_rq g.rqs rid = []
      · rw [if_pos h2] at hg2
        exact ⟨g2, List.mem_cons.mpr (Or.inr hg2), rfl⟩
      · rw [if_neg h2] at hg2
        rcases List.mem_cons.mp hg2 with rfl | hg2b
        · exact ⟨g, List.mem_cons.mpr (Or.inl rfl), rfl⟩
        · exact ⟨g2, List.mem_cons.mpr (Or.inr hg2b), rfl⟩
    · rw [if_neg h1] at hg2
      rcases List.mem_cons.mp hg2 with rfl | hg2b
      · exact ⟨g2, List.mem_cons.mpr (Or.inl rfl), rfl⟩
      · obtain ⟨g3, hg3, he⟩ := ih hg2b
        exact ⟨g3, List.mem_cons.mpr (Or.inr hg3), he⟩

/-- dl_delete preserves strict deadline sortedness. -/
theorem dl_delete_sorted (rid : Nat) :
    ∀ (t : List DlGroup), dl_sorted t → dl_sorted (dl_delete t rid) := by
  intro t
  induction t with
  | nil => intro h; simpa [dl_delete] using h
  | cons g rest ih =>
    intro hs
    rw [dl_sorted, List.pairwise_cons] at hs
    obtain ⟨hg, hrest⟩ := hs
    simp only [dl_delete]
    by_cases h1 : (g.rqs.any fun r => r.rq = rid) = true
    · rw [if_pos h1]
      by_cases h2 : erase_rq g.rqs rid = []
      · rw [if_pos h2]; exact hrest
      · rw [if_neg h2, dl_sorted, List.pairwise_cons]
        exact ⟨hg, hrest⟩
    · rw [if_neg h1, dl_sorted, List.pairwise_cons]
      refine ⟨?_, ih hrest⟩
      intro b hb
      obtain ⟨g3, hg3, he⟩ := mem_dl_delete_deadline hb
      rw [he]; exact hg g3 hg3

/-- Inserting under a deadline that already has a group appends the record
to that group and creates no new group. -/
theorem dl_insert_existing (d : Nat) (rd : RqData) :
    ∀ (t : List DlGroup), dl_sorted t → d ∈ dl_deadlines t →
      dl_deadlines (dl_insert t d rd) = dl_deadlines t ∧
      dl_lookup (dl_insert t d rd) d = dl_lookup t d ++ [rd] := by
  intro t
  induction t with
  | nil => intro _ hd; simp [dl_deadlines] at hd
  | cons g rest ih =>
    intro hs hd
    rw [dl_sorted, List.pairwise_cons] at hs
    obtain ⟨hg, hrest⟩ := hs
    simp only [dl_deadlines, List.map_cons, List.mem_cons] at hd
    rcases hd with hd1 | hd2
    · have h1 : ¬ d < g.deadline := by omega
      simp only [dl_insert, if_neg h1, if_pos hd1]
      constructor
      · simp [dl_deadlines]
      · simp [dl_lookup, hd1]
    · obtain ⟨y, hy, hyd⟩ := List.mem_map.mp hd2
      have hgd : g.deadline < d := by
        rw [← hyd]; exact hg y hy
      have h1 : ¬ d < g.deadline := by omega
      have h2 : ¬ d = g.deadline := by omega
      simp only [dl_insert, if_neg h1, if_neg h2]
      obtain ⟨ihd, ihl⟩ := ih hrest hd2
      constructor
      · simp only [dl_deadlines, List.map_cons]
        simp only [dl_deadlines] at ihd
        rw [ihd]
      · have hgne : ¬ g.deadline = d := by omega
        simp only [dl_lookup, if_neg hgne]
        exact ihl

/-- Removing the first record carrying the given id from a request list
leaves exactly the other records. -/
theorem erase_rq_append :
    ∀ (l1 : List RqData) (r : RqData) (l2 : List RqData) (rid : Nat),
      r.rq = rid → (∀ x ∈ l1, x.rq ≠ rid) →
      erase_rq (l1 ++ r :: l2) rid = l1 ++ l2 := by
  intro l1
  induction l1 with
  | nil => intro r l2 rid hr _; simp [erase_rq, hr]
  | cons x xs ih =>
    intro r l2 rid hr hl
    have hx : ¬ x.rq = rid := hl x (List.mem_cons_self x xs)
    simp only [List.cons_append, erase_rq, if_neg hx, List.append_eq]
    rw [ih r l2 rid hr (fun y hy => hl y (List.mem_cons.mpr (Or.inr hy)))]

/-- Deleting a request from the tree removes exactly that request from its
group; the group survives with its other requests when any remain and is
unlinked when the deleted request was its last. -/
theorem dl_delete_shape :
    ∀ (pre : List DlGroup) (g : DlGroup) (post : List DlGroup)
      (l1 l2 : List RqData) (r : RqData) (rid : Nat),
      (∀ g2 ∈ pre, ∀ x ∈ g2.rqs, x.rq ≠ rid) →
      g.rqs = l1 ++ r :: l2 → r.rq = rid → (∀ x ∈ l1, x.rq ≠ rid) →
      dl_delete (pre ++ g :: post) rid =
        if l1 ++ l2 = [] then pre ++ post
        else pre ++ { g with rqs := l1 ++ l2 } :: post := by
  intro pre
  induction pre with
  | nil =>
    intro g post l1 l2 r rid _ hg hr hl1
    simp only [List.nil_append, dl_delete]
    have hany : (g.rqs.any fun x => x.rq = rid) = true := by
      rw [hg]
      simp only [List.any_eq_true, decide_eq_true_eq]
      exact ⟨r, by simp, hr⟩
    rw [if_pos hany, hg, erase_rq_append l1 r l2 rid hr hl1]
  | cons p ps ih =>
    intro g post l1 l2 r rid hpre hg hr hl1
    have hp : ¬ ((p.rqs.any fun x => x.rq = rid) = true) := by
      simp only [List.any_eq_true, decide_eq_true_eq, not_exists]
      intro x hx
      exact hpre p (List.mem_cons_self p ps) x hx.1 hx.2
    simp only [List.cons_append, dl_delete, if_neg hp, List.append_eq]
    rw [ih g post l1 l2 r rid
      (fun g2 h2 => hpre g2 (List.mem_cons.mpr (Or.inr h2))) hg hr hl1]
    by_cases hc : l1 ++ l2 = []
    · rw [if_pos hc, if_pos hc]
    · rw [if_neg hc, if_neg hc]

/-- Each Deadline Index operation preserves strict sortedness. -/
theorem apply_dl_op_sorted (ad : AdiosData) (op : DlOp) (h : dl_sorted ad.dl_tree) :
    dl_sorted (apply_dl_op ad op).dl_tree := by
  cases op with
  | ins rq => simpa [apply_dl_op, add_to_dl_tree] using
      dl_insert_sorted _ _ ad.dl_tree h
  | del rid => simpa [apply_dl_op, del_from_dl_tree] using
      dl_delete_sorted rid ad.dl_tree h

/-- Any sequence of Deadline Index operations preserves strict sortedness. -/
theorem apply_dl_ops_sorted (ops : List DlOp) :
    ∀ (ad : AdiosData), dl_sorted ad.dl_tree →
      dl_sorted (apply_dl_ops ad ops).dl_tree := by
  induction ops with
  | nil => intro ad h; simpa [apply_dl_ops] using h
  | cons op rest ih =>
    intro ad h
    exact ih (apply_dl_op ad op) (apply_dl_op_sorted ad op h)

/-- C7: after any sequence of Deadline Index insertions and removals no two
groups carry equal deadlines; a request whose computed deadline matches an
existing group is appended to that group's list without creating a new
group; and deleting a request removes exactly it — unlinking the group when
it was the last member, leaving the group with its other requests intact
otherwise. -/
theorem dl_tree_group_spec :
    (∀ (ad : AdiosData) (ops : List DlOp), dl_sorted ad.dl_tree →
        (apply_dl_ops ad ops).dl_tree.Pairwise (fun g1 g2 => g1.deadline ≠ g2.deadline))
    ∧ (∀ (t : List DlGroup) (d : Nat) (rd : RqData), dl_sorted t → d ∈ dl_deadlines t →
        dl_deadlines (dl_insert t d rd) = dl_deadlines t ∧
        dl_lookup (dl_insert t d rd) d = dl_lookup t d ++ [rd])
    ∧ (∀ (pre post : List DlGroup) (g : DlGroup) (l1 l2 : List RqData) (r : RqData)
        (rid : Nat),
        (∀ g2 ∈ pre, ∀ x ∈ g2.rqs, x.rq ≠ rid) →
        g.rqs = l1 ++ r :: l2 → r.rq = rid → (∀ x ∈ l1, x.rq ≠ rid) →
        dl_delete (pre ++ g :: post) rid =
          if l1 ++ l2 = [] then pre ++ post
          else pre ++ { g with rqs := l1 ++ l2 } :: post) := by
  refine ⟨?_, ?_, ?_⟩
  · intro ad ops h
    exact List.Pairwise.imp (fun hab => Nat.ne_of_lt hab) (apply_dl_ops_sorted ops ad h)
  · intro t d rd hs hd
    exact dl_insert_existing d rd t hs hd
  · intro pre post g l1 l2 r rid h1 h2 h3 h4
    exact dl_delete_shape pre g post l1 l2 r rid h1 h2 h3 h4

/-- Witness for C7: two same-deadline inserts then one delete from the
fresh scheduler keep all group deadlines distinct; appending under an
existing deadline grows that group without creating one; deleting the
non-last then the last member shrinks then unlinks the group. -/
theorem dl_tree_group_spec_witness :
    (apply_dl_ops ad_fresh [DlOp.ins rq_w1, DlOp.ins rq_w2, DlOp.del 11]).dl_tree.Pairwise
        (fun g1 g2 => g1.deadline ≠ g2.deadline)
    ∧ dl_deadlines (dl_insert [⟨5, [rd_wA]⟩] 5 rd_wB) = [5]
    ∧ dl_lookup (dl_insert [⟨5, [rd_wA]⟩] 5 rd_wB) 5 = [rd_wA, rd_wB]
    ∧ dl_delete [⟨5, [rd_wA, rd_wB]⟩] 21 = [⟨5, [rd_wB]⟩]
    ∧ dl_delete [⟨5, [rd_wB]⟩] 22 = [] := by
  have h2 := dl_tree_group_spec.2.1 [⟨5, [rd_wA]⟩] 5 rd_wB
    (by simp [dl_sorted]) (by simp [dl_deadlines])
  refine ⟨?_, ?_, ?_, ?_, ?_⟩
  · exact dl_tree_group_spec.1 ad_fresh [DlOp.ins rq_w1, DlOp.ins rq_w2, DlOp.del 11]
      (by simp [ad_fresh, dl_sorted])
  · exact h2.1
  · exact h2.2
  · exact dl_tree_group_spec.2.2 [] [] ⟨5, [rd_wA, rd_wB]⟩ [] [rd_wB] rd_wA 21
      (by simp) rfl rfl (by simp)
  · exact dl_tree_group_spec.2.2 [] [] ⟨5, [rd_wB]⟩ [] [] rd_wB 22
      (by simp) rfl rfl (by simp)

/-- Reading a per-type array after a set: the set slot holds the new value,
all others are untouched. -/
theorem OpArray.get_set (a : OpArray) (ty1 ty2 : AdiosOpType) (v : Nat) :
    (a.set ty1 v).get ty2 = if ty2 = ty1 then v else a.get ty2 := by
  cases ty1 <;> cases ty2 <;> simp [OpArray.set, OpArray.get]

/-- The fill loop never decreases the pass-local staged count. -/
theorem fill_loop_cnt_mono (gw : Nat) (models : ModelArray) (limits : OpArray) :
    ∀ (fuel : Nat) (st : FillSt), st.cnt ≤ (fill_loop gw models limits fuel st).cnt := by
  intro fuel
  induction fuel with
  | zero => intro st; simp [fill_loop]
  | succ n ih =>
    intro st
    cases he : get_ealiest_request st.tree with
    | none => simp [fill_loop, he]
    | some rd =>
      simp only [fill_loop, he]
      split
      · exact le_refl _
      · refine le_trans (Nat.le_succ st.cnt) ?_
        exact ih { tree := dl_delete st.tree rd.rq
                   bq := st.bq.app rd.optype rd.rq
                   bc := st.bc.set rd.optype (st.bc.get rd.optype + 1)
                   tpl := st.tpl + rd.pred_lat
                   cur := st.cur + rd.pred_lat
                   cnt := st.cnt + 1
                   ocnt := st.ocnt.set rd.optype (st.ocnt.get rd.optype + 1) }

/-- With at least one request already staged, the loop stops (staging
nothing further) when the earliest request's type is uncalibrated, at its
cap, or would overflow the window. -/
theorem fill_loop_stop (gw : Nat) (models : ModelArray) (limits : OpArray)
    (fuel : Nat) (st : FillSt) (rd : RqData)
    (he : get_ealiest_request st.tree = some rd) (h0 : st.cnt ≠ 0)
    (hv : (models.get rd.optype).base = 0 ∨ limits.get rd.optype ≤ st.bc.get rd.optype ∨
      gw < st.cur + rd.pred_lat) :
    fill_loop gw models limits (fuel + 1) st = st := by
  simp only [fill_loop, he]
  rw [if_pos ⟨h0, hv⟩]

/-- The earliest request is staged whenever this is the first of the pass,
or its type is calibrated, below its cap and within the window. -/
theorem fill_loop_stage (gw : Nat) (models : ModelArray) (limits : OpArray)
    (fuel : Nat) (st : FillSt) (rd : RqData)
    (he : get_ealiest_request st.tree = some rd)
    (hc : st.cnt = 0 ∨ ((models.get rd.optype).base ≠ 0 ∧
      st.bc.get rd.optype < limits.get rd.optype ∧ st.cur + rd.pred_lat ≤ gw)) :
    st.cnt + 1 ≤ (fill_loop gw models limits (fuel + 1) st).cnt := by
  simp only [fill_loop, he]
  have hneg : ¬ (st.cnt ≠ 0 ∧ ((models.get rd.optype).base = 0 ∨
      limits.get rd.optype ≤ st.bc.get rd.optype ∨ gw < st.cur + rd.pred_lat)) := by
    rcases hc with h | ⟨h1, h2, h3⟩
    · intro hx; exact hx.1 h
    · intro hx
      rcases hx.2 with a | a | a
      · exact h1 a
      · omega
      · omega
  rw [if_neg hneg]
  exact fill_loop_cnt_mono gw models limits fuel
    { tree := dl_delete st.tree rd.rq
      bq := st.bq.app rd.optype rd.rq
      bc := st.bc.set rd.optype (st.bc.get rd.optype + 1)
      tpl := st.tpl + rd.pred_lat
      cur := st.cur + rd.pred_lat
      cnt := st.cnt + 1
      ocnt := st.ocnt.set rd.optype (st.ocnt.get rd.optype + 1) }

/-- Invariant: per-type staged counts stay at or below max(cap, 1). -/
theorem fill_loop_bc_le (gw : Nat) (models : ModelArray) (limits : OpArray) :
    ∀ (fuel : Nat) (st : FillSt),
      (st.cnt = 0 → ∀ ty, st.bc.get ty = 0) →
      (st.cnt ≠ 0 → ∀ ty, st.bc.get ty ≤ max (limits.get ty) 1) →
      ∀ ty, (fill_loop gw models limits fuel st).bc.get ty ≤ max (limits.get ty) 1 := by
  intro fuel
  induction fuel with
  | zero =>
    intro st h0 h1 ty
    simp only [fill_loop]
    by_cases hc : st.cnt = 0
    · rw [h0 hc ty]; exact Nat.zero_le _
    · exact h1 hc ty
  | succ n ih =>
    intro st h0 h1 ty
    cases he : get_ealiest_request st.tree with
    | none =>
      simp only [fill_loop, he]
      by_cases hc : st.cnt = 0
      · rw [h0 hc ty]; exact Nat.zero_le _
      · exact h1 hc ty
    | some rd =>
      simp only [fill_loop, he]
      split
      · by_cases hc : st.cnt = 0
        · rw [h0 hc ty]; exact Nat.zero_le _
        · exact h1 hc ty
      · rename_i hneg
        apply ih
        · intro habs; simp at habs
        · intro _ ty2
          dsimp only
          rw [OpArray.get_set]
          split
          · rename_i hty
            subst hty
            by_cases hc : st.cnt = 0
            · rw [h0 hc rd.optype]
              simp
            · have hlt : st.bc.get rd.optype < limits.get rd.optype := by
                by_contra hge
                exact hneg ⟨hc, Or.inr (Or.inl (Nat.le_of_not_lt hge))⟩
              exact le_trans hlt (le_max_left _ _)
          · by_cases hc : st.cnt = 0
            · rw [h0 hc ty2]; exact Nat.zero_le _
            · exact h1 hc ty2

/-- Invariant: an uncalibrated type stages at most the one unconditional
first request of a pass. -/
theorem fill_loop_bc_uncal (gw : Nat) (models : ModelArray) (limits : OpArray)
    (ty : AdiosOpType) (hb : (models.get ty).base = 0) :
    ∀ (fuel : Nat) (st : FillSt),
      (st.cnt = 0 → st.bc.get ty = 0) → st.bc.get ty ≤ 1 →
      (fill_loop gw models limits fuel st).bc.get ty ≤ 1 := by
  intro fuel
  induction fuel with
  | zero => intro st _ h1; simpa [fill_loop] using h1
  | succ n ih =>
    intro st h0 h1
    cases he : get_ealiest_request st.tree with
    | none => simpa [fill_loop, he] using h1
    | some rd =>
      simp only [fill_loop, he]
      split
      · exact h1
      · rename_i hneg
        apply ih
        · intro habs; simp at habs
        · dsimp only
          rw [OpArray.get_set]
          split
          · rename_i hty
            subst hty
            by_cases hc : st.cnt = 0
            · rw [h0 hc]
            · exfalso; exact hneg ⟨hc, Or.inl hb⟩
          · exact h1

/-- A tree with an earliest request holds at least one request. -/
theorem dl_size_pos {t : List DlGroup} {rd : RqData}
    (he : get_ealiest_request t = some rd) : 1 ≤ dl_size t := by
  cases t with
  | nil => simp [get_ealiest_request] at he
  | cons g rest =>
    simp only [get_ealiest_request] at he
    cases hq : g.rqs with
    | nil => rw [hq] at he; simp at he
    | cons r rs =>
      simp [dl_size, hq, List.length_cons]
      omega

/-- Reading a per-type count array back out of the same page it was just
stored into. -/
theorem bcAt_setBcAt (ad : AdiosData) (page : Nat) (v : OpArray) :
    (ad.setBcAt page v).bcAt page = v := by
  unfold AdiosData.setBcAt AdiosData.bcAt
  by_cases h : page % 2 = 0 <;> simp [h]

/-- fill_batch_queues returns the loop's staged count, and leaves the loop's
final per-type counts in the just-filled (inactive) page. -/
theorem fill_batch_result (gw : Nat) (ad : AdiosData) (cur : Nat) :
    (fill_batch_queues gw ad cur).2
      = (fill_loop gw ad.latency_model ad.batch_limit (dl_size ad.dl_tree)
          { tree := ad.dl_tree, bq := ad.bqAt ((ad.bq_page + 1) % 2), bc := op_zero,
            tpl := ad.total_pred_lat, cur := cur, cnt := 0, ocnt := op_zero }).cnt
    ∧ (fill_batch_queues gw ad cur).1.bcAt ((ad.bq_page + 1) % 2)
      = (fill_loop gw ad.latency_model ad.batch_limit (dl_size ad.dl_tree)
          { tree := ad.dl_tree, bq := ad.bqAt ((ad.bq_page + 1) % 2), bc := op_zero,
            tpl := ad.total_pred_lat, cur := cur, cnt := 0, ocnt := op_zero }).bc := by
  constructor
  · rfl
  · simp only [fill_batch_queues]
    split <;>
      · by_cases hp : (ad.bq_page + 1) % 2 = 0 <;>
          simp [AdiosData.bcAt, AdiosData.setBcAt, AdiosData.setBqAt, hp]

/-- C5: every fill pass over a non-empty Deadline Index stages at least one
request regardless of window, caps or calibration (part 1); per-type staged
counts never pass max(cap, 1) (part 2) and an uncalibrated type never holds
more than the single unconditional first request (part 3); with one or more
requests already staged, the pass stops rather than stage a request whose
type is uncalibrated, at its cap, or past the window (part 4), and stages
the earliest request whenever it is the first of the pass or satisfies all
three conditions (part 5). -/
theorem fill_batch_queues_spec :
    (∀ (gw : Nat) (ad : AdiosData) (cur : Nat),
        get_ealiest_request ad.dl_tree ≠ none →
        1 ≤ (fill_batch_queues gw ad cur).2)
    ∧ (∀ (gw : Nat) (ad : AdiosData) (cur : Nat) (ty : AdiosOpType),
        ((fill_batch_queues gw ad cur).1.bcAt ((ad.bq_page + 1) % 2)).get ty
          ≤ max (ad.batch_limit.get ty) 1)
    ∧ (∀ (gw : Nat) (ad : AdiosData) (cur : Nat) (ty : AdiosOpType),
        (ad.latency_model.get ty).base = 0 →
        ((fill_batch_queues gw ad cur).1.bcAt ((ad.bq_page + 1) % 2)).get ty ≤ 1)
    ∧ (∀ (gw : Nat) (models : ModelArray) (limits : OpArray) (fuel : Nat) (st : FillSt)
        (rd : RqData),
        get_ealiest_request st.tree = some rd → st.cnt ≠ 0 →
        ((models.get rd.optype).base = 0 ∨ limits.get rd.optype ≤ st.bc.get rd.optype ∨
          gw < st.cur + rd.pred_lat) →
        fill_loop gw models limits (fuel + 1) st = st)
    ∧ (∀ (gw : Nat) (models : ModelArray) (limits : OpArray) (fuel : Nat) (st : FillSt)
        (rd : RqData),
        get_ealiest_request st.tree = some rd →
        (st.cnt = 0 ∨ ((models.get rd.optype).base ≠ 0 ∧
          st.bc.get rd.optype < limits.get rd.optype ∧ st.cur + rd.pred_lat ≤ gw)) →
        st.cnt + 1 ≤ (fill_loop gw models limits (fuel + 1) st).cnt) := by
  refine ⟨?_, ?_, ?_, fill_loop_stop, fill_loop_stage⟩
  · intro gw ad cur he
    rw [(fill_batch_result gw ad cur).1]
    obtain ⟨rd, hrd⟩ := Option.ne_none_iff_exists'.mp he
    have h1 := dl_size_pos hrd
    obtain ⟨k, hk⟩ : ∃ k, dl_size ad.dl_tree = k + 1 := ⟨dl_size ad.dl_tree - 1, by omega⟩
    rw [hk]
    exact fill_loop_stage gw ad.latency_model ad.batch_limit k
      { tree := ad.dl_tree, bq := ad.bqAt ((ad.bq_page + 1) % 2), bc := op_zero,
        tpl := ad.total_pred_lat, cur := cur, cnt := 0, ocnt := op_zero }
      rd hrd (Or.inl rfl)
  · intro gw ad cur ty
    rw [(fill_batch_result gw ad cur).2]
    exact fill_loop_bc_le gw ad.latency_model ad.batch_limit (dl_size ad.dl_tree)
      { tree := ad.dl_tree, bq := ad.bqAt ((ad.bq_page + 1) % 2), bc := op_zero,
        tpl := ad.total_pred_lat, cur := cur, cnt := 0, ocnt := op_zero }
      (fun _ ty2 => by cases ty2 <;> rfl) (fun h => absurd rfl h) ty
  · intro gw ad cur ty hb
    rw [(fill_batch_result gw ad cur).2]
    exact fill_loop_bc_uncal gw ad.latency_model ad.batch_limit ty hb (dl_size ad.dl_tree)
      { tree := ad.dl_tree, bq := ad.bqAt ((ad.bq_page + 1) % 2), bc := op_zero,
        tpl := ad.total_pred_lat, cur := cur, cnt := 0, ocnt := op_zero }
      (fun _ => by cases ty <;> rfl) (by cases ty <;> simp [op_zero, OpArray.get])

/-- Witness for C5: with one pending read and a zero-size latency window,
the fill pass still stages a request; and a mid-pass state with one request
already staged stops at a window violation. -/
theorem fill_batch_queues_spec_witness :
    get_ealiest_request ad_w.dl_tree ≠ none
    ∧ 1 ≤ (fill_batch_queues 0 ad_w 0).2
    ∧ fill_loop 0 ad_fresh.latency_model ad_fresh.batch_limit 1 st_w = st_w := by
  refine ⟨by decide, ?_, ?_⟩
  · exact fill_batch_queues_spec.1 0 ad_w 0 (by decide)
  · exact fill_batch_queues_spec.2.2.2.1 0 ad_fresh.latency_model ad_fresh.batch_limit
      0 st_w rd_w (by decide) (by decide) (by decide)
